import Mathlib

/-!
Verification of the rethinkdb-watch core: the watch orchestration pipeline
that turns a raw changefeed into deduplicated, batched update maps.

The definitions below are a shallow embedding of the TypeScript source.
The repository carries two variants of the watch module; the embedding
follows the current core, i.e. the variant that contains the per-key
reference-counted deduplication (function handleDuplicateUpdates), opens
the changefeed with squash set to false, and checks at runtime that the
key function returned a string.  The historical variant (squash set to
true, no deduplication tracker) is explicitly called out by the design
notes as superseded; the functions makeUpdate and addToBatch are
identical in both variants.

Modelling conventions:
  * JavaScript Map objects become insertion-ordered association lists
    (AList) with the Map.get / Map.set / Map.delete operations.
  * Thrown exceptions become Except.error carrying a WatchError value;
    each WatchError constructor corresponds to one throw site.
  * The TypeScript record type WatchUpdate (a tagged record with optional
    oldVal / newVal fields) is embedded as a record with a tag and two
    Option fields, so that well-formedness of the optional fields is a
    provable property rather than a typing artifact.
  * JavaScript numbers used as reference counts become Int, so that the
    decrement in the remove branch is not silently truncated.
-/

namespace RethinkdbWatch

/-- Runtime values a user-supplied key function may return.  TypeScript
annotates the key function as returning a string, but the annotation is
erased at runtime, so the source checks typeof explicitly. -/
inductive JSVal where
  | str (s : String)
  | num (n : Int)
deriving DecidableEq

/-- The tag of a watch update: the type field of the TypeScript record. -/
inductive UpdateType where
  | add
  | change
  | remove
deriving DecidableEq

/-- Embeds the TypeScript union WatchUpdate, i.e. records of the shape
type add with newVal only, type change with oldVal and newVal, and
type remove with oldVal only.  Both value fields are kept optional, as
in the runtime representation. -/
structure WatchUpdate (T : Type) where
  type : UpdateType
  oldVal : Option T
  newVal : Option T
deriving DecidableEq

/-- State markers delivered by the changefeed cursor. -/
inductive ChangesState where
  | initializing
  | ready
deriving DecidableEq

/-- The fields of the rethinkdb-ts Changes record that the watch module
reads: new_val, old_val, error and state. -/
structure Changes (T : Type) where
  new_val : Option T
  old_val : Option T
  error : Option String
  state : Option ChangesState
deriving DecidableEq

/-- One constructor per throw site of the embedded source.
  * streamError: makeUpdate rethrows the error field of a raw event.
  * keyNotString: getKey rejects a non-string result of the key function.
  * missingState: handleDuplicateUpdates received a change or remove
    update for a key with no tracked state.
  * unexpectedUpdate: addToBatch hit a combination of previous and new
    update not allowed by the transition grammar.
  * undefinedAccess: models a runtime failure of a non-null assertion;
    unreachable on the inputs produced by the pipeline. -/
inductive WatchError where
  | streamError (message : String)
  | keyNotString (value : JSVal)
  | missingState (t : UpdateType)
  | unexpectedUpdate (prev next : UpdateType)
  | undefinedAccess
deriving DecidableEq

/-- JavaScript Map, embedded as an insertion-ordered association list. -/
abbrev AList (K V : Type) := List (K × V)

namespace AList

variable {K V : Type} [DecidableEq K]

/-- Map.get: first entry with the given key. -/
def get : AList K V → K → Option V
  | [], _ => none
  | (k', v) :: rest, k => if k' = k then some v else get rest k

/-- Map.set: replace the entry in place if the key is present, otherwise
append a new entry. -/
def set : AList K V → K → V → AList K V
  | [], k, v => [(k, v)]
  | (k', v') :: rest, k, v =>
    if k' = k then (k, v) :: rest else (k', v') :: set rest k v

/-- Map.delete: drop the entry with the given key. -/
def del : AList K V → K → AList K V
  | [], _ => []
  | (k', v') :: rest, k => if k' = k then rest else (k', v') :: del rest k

/-- The keys of the map, in insertion order. -/
def keys : AList K V → List K
  | [] => []
  | (k, _) :: rest => k :: keys rest

end AList

/-- A batch under construction: Map from string key to the net update. -/
abbrev Batch (T : Type) := AList String (WatchUpdate T)

/-- The per-key deduplication state kept by the watch orchestrator:
a reference count together with the queued change updates whose emission
is delayed (field pendingUpdates in the source). -/
structure DedupState (T : Type) where
  refCount : Int
  pendingUpdates : List (WatchUpdate T)
deriving DecidableEq

/-- The Map from key to deduplication state (variable states in watch). -/
abbrev DedupStates (T : Type) := AList String (DedupState T)

/-- Embeds makeUpdate: normalizes one raw change event into a semantic
update, null for a pure state marker, or a thrown stream error. -/
def makeUpdate {T : Type} (changes : Changes T) :
    Except WatchError (Option (WatchUpdate T)) :=
  match changes.error with
  | some e => .error (.streamError e)
  | none =>
    match changes.new_val with
    | some nv =>
      match changes.old_val with
      | none => .ok (some ⟨.add, none, some nv⟩)
      | some ov => .ok (some ⟨.change, some ov, some nv⟩)
    | none =>
      match changes.old_val with
      | none => .ok none
      | some ov => .ok (some ⟨.remove, some ov, none⟩)

/-- Embeds getKey: applies the key function to newVal if present,
otherwise to oldVal, and fails unless the result is a string.  The
branch for an update carrying neither value models the non-null
assertion in the source; it is unreachable for normalizer outputs. -/
def getKey {T : Type} (keyFn : T → JSVal) (update : WatchUpdate T) :
    Except WatchError String :=
  match update.newVal <|> update.oldVal with
  | none => .error .undefinedAccess
  | some v =>
    match keyFn v with
    | .str s => .ok s
    | other => .error (.keyNotString other)

/-- Embeds handleDuplicateUpdates: resolves duplicate notifications via
per-key reference counting.  Returns the updated state map together with
the update to forward (none when the update is suppressed).  The source
mutates the Map and the state record in place; the embedding threads
them explicitly. -/
def handleDuplicateUpdates {T : Type} (states : DedupStates T) (key : String)
    (update : WatchUpdate T) :
    Except WatchError (DedupStates T × Option (WatchUpdate T)) :=
  match update.type with
  | .add =>
    match AList.get states key with
    | some state =>
      .ok (AList.set states key ⟨state.refCount + 1, state.pendingUpdates⟩, none)
    | none =>
      .ok (AList.set states key ⟨1, []⟩, some update)
  | .change =>
    match AList.get states key with
    | none => .error (.missingState .change)
    | some state =>
      let pending := state.pendingUpdates ++ [update]
      if (pending.length : Int) = state.refCount then
        .ok (AList.set states key ⟨state.refCount, []⟩, some update)
      else
        .ok (AList.set states key ⟨state.refCount, pending⟩, none)
  | .remove =>
    match AList.get states key with
    | none => .error (.missingState .remove)
    | some state =>
      let newRefCount := state.refCount - 1
      if (state.pendingUpdates.length : Int) = newRefCount then
        if newRefCount = 0 then
          .ok (AList.del states key, some update)
        else
          match state.pendingUpdates.getLast? with
          | some lastPending =>
            .ok (AList.set states key ⟨newRefCount, []⟩, some lastPending)
          | none => .error .undefinedAccess
      else
        .ok (AList.set states key ⟨newRefCount, state.pendingUpdates⟩, none)

/-- Embeds addToBatch: merges a new update for a key with the update
already recorded for that key in the current batch, enforcing the
transition grammar.  The source dispatches on the type fields of the
previous and new update; all constructed records copy exactly the fields
the source copies. -/
def addToBatch {T : Type} (batch : Batch T) (key : String)
    (update : WatchUpdate T) : Except WatchError (Batch T) :=
  match AList.get batch key with
  | none => .ok (AList.set batch key update)
  | some prevUpdate =>
    match prevUpdate.type, update.type with
    | .add, .add => .error (.unexpectedUpdate .add .add)
    | .add, .change => .ok (AList.set batch key ⟨.add, none, update.newVal⟩)
    | .add, .remove => .ok (AList.del batch key)
    | .change, .add => .error (.unexpectedUpdate .change .add)
    | .change, .change =>
      .ok (AList.set batch key ⟨.change, prevUpdate.oldVal, update.newVal⟩)
    | .change, .remove =>
      .ok (AList.set batch key ⟨.remove, prevUpdate.oldVal, none⟩)
    | .remove, .add =>
      .ok (AList.set batch key ⟨.change, prevUpdate.oldVal, update.newVal⟩)
    | .remove, .change => .error (.unexpectedUpdate .remove .change)
    | .remove, .remove => .error (.unexpectedUpdate .remove .remove)

/-- Embeds handleChanges: the per-event body of both the initial
collection loop and the streaming loop.  Normalize the raw event, stop on
null, compute the key, deduplicate, stop on suppression, merge into the
batch. -/
def handleChanges {T : Type} (keyFn : T → JSVal) (states : DedupStates T)
    (batch : Batch T) (changes : Changes T) :
    Except WatchError (DedupStates T × Batch T) :=
  match makeUpdate changes with
  | .error e => .error e
  | .ok none => .ok (states, batch)
  | .ok (some update) =>
    match getKey keyFn update with
    | .error e => .error e
    | .ok key =>
      match handleDuplicateUpdates states key update with
      | .error e => .error e
      | .ok (newStates, none) => .ok (newStates, batch)
      | .ok (newStates, some dedupedUpdate) =>
        match addToBatch batch key dedupedUpdate with
        | .error e => .error e
        | .ok newBatch => .ok (newStates, newBatch)

/-- The orchestrator feeding a sequence of consecutive cursor events
through handleChanges, threading the state map and the batch: the pure
content of the read loops of watch. -/
def processChanges {T : Type} (keyFn : T → JSVal) :
    DedupStates T → Batch T → List (Changes T) →
    Except WatchError (DedupStates T × Batch T)
  | states, batch, [] => .ok (states, batch)
  | states, batch, c :: rest =>
    match handleChanges keyFn states batch c with
    | .error e => .error e
    | .ok (states', batch') => processChanges keyFn states' batch' rest

/-- Embeds the initial collection loop of watch: feed events through
handleChanges until an event carrying the ready state marker has been
handled; the empty list marks exhaustion of the supplied event prefix. -/
def collectInitial {T : Type} (keyFn : T → JSVal) :
    DedupStates T → Batch T → List (Changes T) →
    Except WatchError (DedupStates T × Batch T)
  | states, batch, [] => .ok (states, batch)
  | states, batch, c :: rest =>
    match handleChanges keyFn states batch c with
    | .error e => .error e
    | .ok (states', batch') =>
      if c.state = some ChangesState.ready then .ok (states', batch')
      else collectInitial keyFn states' batch' rest

/-- The flags watch passes to the changes call on the selection. -/
structure ChangefeedOptions where
  squash : Bool
  changefeedQueueSize : Option Nat
  includeInitial : Bool
  includeStates : Bool
deriving DecidableEq

/-- Embeds the options record built inside watch when opening the
cursor: squash disabled, the callers queue size forwarded, initial
results and state markers included. -/
def watchChangesOptions (changefeedQueueSize : Option Nat) : ChangefeedOptions :=
  ⟨false, changefeedQueueSize, true, true⟩

/-- Well-formedness of a watch update record: an add carries newVal and
no oldVal, a change carries both values, a remove carries oldVal and no
newVal.  This is the invariant the TypeScript union type expresses. -/
def wfUpdate {T : Type} (u : WatchUpdate T) : Bool :=
  match u.type with
  | .add => u.newVal.isSome && u.oldVal.isNone
  | .change => u.oldVal.isSome && u.newVal.isSome
  | .remove => u.oldVal.isSome && u.newVal.isNone

/-- A raw changefeed event announcing that a value entered the result
set: new_val present, old_val absent. -/
def addEvent {T : Type} (v : T) : Changes T :=
  ⟨some v, none, none, none⟩

/-! Basic lemmas about the Map embedding. -/

namespace AList

variable {K V : Type} [DecidableEq K]

theorem get_set_self (l : AList K V) (k : K) (v : V) :
    get (set l k v) k = some v := by
  induction l with
  | nil => simp [set, get]
  | cons hd tl ih =>
    obtain ⟨k', v'⟩ := hd
    by_cases hk : k' = k
    · simp [set, get, hk]
    · simp [set, get, hk, ih]

theorem get_set_ne (l : AList K V) (k k' : K) (v : V) (h : k' ≠ k) :
    get (set l k v) k' = get l k' := by
  have hkk : ¬k = k' := fun hh => h hh.symm
  induction l with
  | nil => simp [set, get, hkk]
  | cons hd tl ih =>
    obtain ⟨a, w⟩ := hd
    by_cases ha : a = k
    · subst ha
      simp [set, get, hkk]
    · simp only [set, if_neg ha]
      by_cases ha' : a = k'
      · simp [get, ha']
      · simp [get, ha', ih]

theorem get_del_ne (l : AList K V) (k k' : K) (h : k' ≠ k) :
    get (del l k) k' = get l k' := by
  induction l with
  | nil => simp [del]
  | cons hd tl ih =>
    obtain ⟨a, w⟩ := hd
    by_cases ha : a = k
    · subst ha
      have : ¬a = k' := fun hh => h hh.symm
      simp [del, get, this]
    · simp only [del, if_neg ha]
      by_cases ha' : a = k'
      · simp [get, ha']
      · simp [get, ha', ih]

theorem get_eq_none_of_not_mem_keys {l : AList K V} {k : K}
    (h : k ∉ keys l) : get l k = none := by
  induction l with
  | nil => rfl
  | cons hd tl ih =>
    obtain ⟨a, w⟩ := hd
    simp [keys] at h
    simp [get, Ne.symm h.1, ih h.2]

theorem get_del_self {l : AList K V} {k : K}
    (h : (keys l).Nodup) : get (del l k) k = none := by
  induction l with
  | nil => rfl
  | cons hd tl ih =>
    obtain ⟨a, w⟩ := hd
    simp [keys] at h
    by_cases ha : a = k
    · subst ha
      simpa [del] using get_eq_none_of_not_mem_keys h.1
    · simp [del, get, ha, ih h.2]

theorem mem_set {l : AList K V} {k : K} {v : V} {e : K × V}
    (h : e ∈ set l k v) : e = (k, v) ∨ e ∈ l := by
  induction l with
  | nil => simpa [set] using h
  | cons hd tl ih =>
    obtain ⟨a, w⟩ := hd
    by_cases ha : a = k
    · simp [set, ha] at h
      rcases h with h | h
      · exact Or.inl (by simp [h])
      · exact Or.inr (List.mem_cons_of_mem _ h)
    · simp [set, ha] at h
      rcases h with h | h
      · exact Or.inr (by simp [h])
      · rcases ih h with h' | h'
        · exact Or.inl h'
        · exact Or.inr (List.mem_cons_of_mem _ h')

theorem mem_del {l : AList K V} {k : K} {e : K × V}
    (h : e ∈ del l k) : e ∈ l := by
  induction l with
  | nil => simp [del] at h
  | cons hd tl ih =>
    obtain ⟨a, w⟩ := hd
    by_cases ha : a = k
    · simp [del, ha] at h
      exact List.mem_cons_of_mem _ h
    · simp [del, ha] at h
      rcases h with h | h
      · simp [h]
      · exact List.mem_cons_of_mem _ (ih h)

theorem get_mem {l : AList K V} {k : K} {v : V}
    (h : get l k = some v) : (k, v) ∈ l := by
  induction l with
  | nil => simp [get] at h
  | cons hd tl ih =>
    obtain ⟨a, w⟩ := hd
    by_cases ha : a = k
    · subst ha
      simp [get] at h
      simp [h]
    · simp [get, ha] at h
      exact List.mem_cons_of_mem _ (ih h)

end AList

/-! Claim theorems. -/

/-- C2: for every invocation of watch, the changefeed cursor is opened
with server-side squashing disabled, the initial result set included,
state markers included, and the callers changefeedQueueSize forwarded. -/
theorem watch_opens_cursor_with_required_flags (q : Option Nat) :
    (watchChangesOptions q).squash = false
    ∧ (watchChangesOptions q).includeInitial = true
    ∧ (watchChangesOptions q).includeStates = true
    ∧ (watchChangesOptions q).changefeedQueueSize = q :=
  ⟨rfl, rfl, rfl, rfl⟩

/-- C3: addToBatch follows the transition grammar exactly: with no
previous update the new one is stored as-is; add then change yields add
of the new value; add then remove deletes the entry (and no entry for
the key remains when the batch has no duplicate keys); change then
change yields change with the previous oldVal and the new newVal; change
then remove yields remove with the previous oldVal; remove then add
yields change with the previous oldVal and the new newVal; the four
combinations add plus add, change plus add, remove plus change and
remove plus remove fail with a grammar-violation error. -/
theorem addToBatch_transition_grammar {T : Type} (b : Batch T) (k : String) :
    (∀ u : WatchUpdate T, AList.get b k = none →
      addToBatch b k u = .ok (AList.set b k u))
    ∧ (∀ p u : WatchUpdate T, AList.get b k = some p →
        p.type = .add → u.type = .change →
        addToBatch b k u = .ok (AList.set b k ⟨.add, none, u.newVal⟩))
    ∧ (∀ p u : WatchUpdate T, AList.get b k = some p →
        p.type = .add → u.type = .remove →
        addToBatch b k u = .ok (AList.del b k)
        ∧ ((AList.keys b).Nodup → AList.get (AList.del b k) k = none))
    ∧ (∀ p u : WatchUpdate T, AList.get b k = some p →
        p.type = .change → u.type = .change →
        addToBatch b k u = .ok (AList.set b k ⟨.change, p.oldVal, u.newVal⟩))
    ∧ (∀ p u : WatchUpdate T, AList.get b k = some p →
        p.type = .change → u.type = .remove →
        addToBatch b k u = .ok (AList.set b k ⟨.remove, p.oldVal, none⟩))
    ∧ (∀ p u : WatchUpdate T, AList.get b k = some p →
        p.type = .remove → u.type = .add →
        addToBatch b k u = .ok (AList.set b k ⟨.change, p.oldVal, u.newVal⟩))
    ∧ (∀ p u : WatchUpdate T, AList.get b k = some p →
        p.type = .add → u.type = .add →
        addToBatch b k u = .error (.unexpectedUpdate .add .add))
    ∧ (∀ p u : WatchUpdate T, AList.get b k = some p →
        p.type = .change → u.type = .add →
        addToBatch b k u = .error (.unexpectedUpdate .change .add))
    ∧ (∀ p u : WatchUpdate T, AList.get b k = some p →
        p.type = .remove → u.type = .change →
        addToBatch b k u = .error (.unexpectedUpdate .remove .change))
    ∧ (∀ p u : WatchUpdate T, AList.get b k = some p →
        p.type = .remove → u.type = .remove →
        addToBatch b k u = .error (.unexpectedUpdate .remove .remove)) := by
  refine ⟨?_, ?_, ?_, ?_, ?_, ?_, ?_, ?_, ?_, ?_⟩
  · intro u hget
    simp [addToBatch, hget]
  · intro p u hget hp hu
    simp [addToBatch, hget, hp, hu]
  · intro p u hget hp hu
    exact ⟨by simp [addToBatch, hget, hp, hu], fun hnd => AList.get_del_self hnd⟩
  · intro p u hget hp hu
    simp [addToBatch, hget, hp, hu]
  · intro p u hget hp hu
    simp [addToBatch, hget, hp, hu]
  · intro p u hget hp hu
    simp [addToBatch, hget, hp, hu]
  · intro p u hget hp hu
    simp [addToBatch, hget, hp, hu]
  · intro p u hget hp hu
    simp [addToBatch, hget, hp, hu]
  · intro p u hget hp hu
    simp [addToBatch, hget, hp, hu]
  · intro p u hget hp hu
    simp [addToBatch, hget, hp, hu]

/-- Witness for C3: the add then change row evaluated on a concrete
batch holding one add entry. -/
theorem addToBatch_transition_grammar_witness :
    AList.get [("a", (⟨.add, none, some 1⟩ : WatchUpdate Nat))] "a"
      = some ⟨.add, none, some 1⟩
    ∧ addToBatch [("a", (⟨.add, none, some 1⟩ : WatchUpdate Nat))] "a"
        ⟨.change, some 1, some 2⟩
      = .ok (AList.set [("a", (⟨.add, none, some 1⟩ : WatchUpdate Nat))] "a"
          ⟨.add, none, some 2⟩) :=
  ⟨by decide,
    (addToBatch_transition_grammar
        [("a", (⟨.add, none, some 1⟩ : WatchUpdate Nat))] "a").2.1
      ⟨.add, none, some 1⟩ ⟨.change, some 1, some 2⟩ (by decide) rfl rfl⟩

/-- C6: a change or a remove update for a key with no existing dedup
state makes handleDuplicateUpdates fail with the protocol-violation
error instead of accepting the update. -/
theorem dedup_missing_state_is_protocol_violation {T : Type}
    (states : DedupStates T) (k : String) (u : WatchUpdate T)
    (hget : AList.get states k = none) :
    (u.type = .change →
      handleDuplicateUpdates states k u = .error (.missingState .change))
    ∧ (u.type = .remove →
      handleDuplicateUpdates states k u = .error (.missingState .remove)) := by
  constructor
  · intro hu
    simp [handleDuplicateUpdates, hu, hget]
  · intro hu
    simp [handleDuplicateUpdates, hu, hget]

/-- Witness for C6: a remove update for a key absent from an empty state
map is rejected. -/
theorem dedup_missing_state_is_protocol_violation_witness :
    AList.get ([] : DedupStates Nat) "a" = none
    ∧ handleDuplicateUpdates ([] : DedupStates Nat) "a" ⟨.remove, some 0, none⟩
      = .error (.missingState .remove) :=
  ⟨rfl,
    (dedup_missing_state_is_protocol_violation ([] : DedupStates Nat) "a"
      ⟨.remove, some 0, none⟩ rfl).2 rfl⟩

/-- C9: frame property of addToBatch: a successful call modifies at most
the entry at the given key; every other key maps to the same entry
before and after.  The error outcomes of addToBatch return without
constructing a batch, matching the source where every throw happens
before any mutation of the Map. -/
theorem addToBatch_frame {T : Type} (b : Batch T) (k : String)
    (u : WatchUpdate T) (b' : Batch T) (k' : String)
    (h : addToBatch b k u = .ok b') (hne : k' ≠ k) :
    AList.get b' k' = AList.get b k' := by
  unfold addToBatch at h
  split at h
  · injection h with h
    subst h
    exact AList.get_set_ne b k k' u hne
  · split at h <;> first
      | (injection h with h; subst h;
         first
           | exact AList.get_set_ne b k k' _ hne
           | exact AList.get_del_ne b k k' hne)
      | exact absurd h (by simp)

/-- Witness for C9: removing the entry at one key leaves the lookup of
the other key unchanged. -/
theorem addToBatch_frame_witness :
    addToBatch
        [("a", (⟨.add, none, some 1⟩ : WatchUpdate Nat)),
         ("b", (⟨.add, none, some 2⟩ : WatchUpdate Nat))]
        "a" ⟨.remove, some 1, none⟩
      = .ok [("b", (⟨.add, none, some 2⟩ : WatchUpdate Nat))]
    ∧ ("b" : String) ≠ "a"
    ∧ AList.get [("b", (⟨.add, none, some 2⟩ : WatchUpdate Nat))] "b"
      = AList.get
          [("a", (⟨.add, none, some 1⟩ : WatchUpdate Nat)),
           ("b", (⟨.add, none, some 2⟩ : WatchUpdate Nat))] "b" :=
  ⟨by rfl, by decide,
    addToBatch_frame
      [("a", (⟨.add, none, some 1⟩ : WatchUpdate Nat)),
       ("b", (⟨.add, none, some 2⟩ : WatchUpdate Nat))]
      "a" ⟨.remove, some 1, none⟩
      [("b", (⟨.add, none, some 2⟩ : WatchUpdate Nat))] "b"
      (by rfl) (by decide)⟩

/-- C5: makeUpdate is a total function of one raw change event: an
event carrying an error fails with a stream error; new_val present and
old_val absent yields an add; both present yields a change; new_val
absent and old_val present yields a remove; both absent yields null, in
which case an event carrying the ready state marker still ends the
initial collection loop without touching state map or batch. -/
theorem makeUpdate_normalizer_cases {T : Type} (c : Changes T)
    (keyFn : T → JSVal) (states : DedupStates T) (b : Batch T)
    (rest : List (Changes T)) :
    (∀ e, c.error = some e → makeUpdate c = .error (.streamError e))
    ∧ (∀ nv, c.error = none → c.new_val = some nv → c.old_val = none →
        makeUpdate c = .ok (some ⟨.add, none, some nv⟩))
    ∧ (∀ nv ov, c.error = none → c.new_val = some nv → c.old_val = some ov →
        makeUpdate c = .ok (some ⟨.change, some ov, some nv⟩))
    ∧ (∀ ov, c.error = none → c.new_val = none → c.old_val = some ov →
        makeUpdate c = .ok (some ⟨.remove, some ov, none⟩))
    ∧ (c.error = none → c.new_val = none → c.old_val = none →
        makeUpdate c = .ok none
        ∧ (c.state = some ChangesState.ready →
            collectInitial keyFn states b (c :: rest) = .ok (states, b))) := by
  refine ⟨?_, ?_, ?_, ?_, ?_⟩
  · intro e he
    simp [makeUpdate, he]
  · intro nv he hn ho
    simp [makeUpdate, he, hn, ho]
  · intro nv ov he hn ho
    simp [makeUpdate, he, hn, ho]
  · intro ov he hn ho
    simp [makeUpdate, he, hn, ho]
  · intro he hn ho
    refine ⟨by simp [makeUpdate, he, hn, ho], fun hs => ?_⟩
    simp [collectInitial, handleChanges, makeUpdate, he, hn, ho, hs]

/-- Witness for C5: the add case and the pure ready marker case
evaluated on concrete events. -/
theorem makeUpdate_normalizer_cases_witness :
    ((⟨some 5, none, none, none⟩ : Changes Nat).error = none
      ∧ (⟨some 5, none, none, none⟩ : Changes Nat).new_val = some 5
      ∧ (⟨some 5, none, none, none⟩ : Changes Nat).old_val = none
      ∧ makeUpdate (⟨some 5, none, none, none⟩ : Changes Nat)
          = .ok (some ⟨.add, none, some 5⟩))
    ∧ collectInitial (fun n : Nat => JSVal.str (toString n)) [] []
        [⟨none, none, none, some ChangesState.ready⟩] = .ok ([], []) :=
  ⟨⟨rfl, rfl, rfl,
    (makeUpdate_normalizer_cases (⟨some 5, none, none, none⟩ : Changes Nat)
        (fun n => JSVal.str (toString n)) [] [] []).2.1 5 rfl rfl rfl⟩,
    ((makeUpdate_normalizer_cases
        (⟨none, none, none, some ChangesState.ready⟩ : Changes Nat)
        (fun n => JSVal.str (toString n)) [] [] []).2.2.2.2 rfl rfl rfl).2 rfl⟩

/-- C7: if the key function returns a non-string value for the value
carried by an update, getKey fails with the key-contract error, and
handleChanges fails with that same error before the update reaches
handleDuplicateUpdates or addToBatch, so the update is merged into no
batch. -/
theorem getKey_nonstring_is_fatal {T : Type} (keyFn : T → JSVal)
    (states : DedupStates T) (batch : Batch T) (c : Changes T)
    (u : WatchUpdate T) (v : T) (n : Int)
    (hu : makeUpdate c = .ok (some u))
    (hv : (u.newVal <|> u.oldVal) = some v)
    (hk : keyFn v = JSVal.num n) :
    getKey keyFn u = .error (.keyNotString (JSVal.num n))
    ∧ handleChanges keyFn states batch c
      = .error (.keyNotString (JSVal.num n)) := by
  have hg : getKey keyFn u = .error (.keyNotString (JSVal.num n)) := by
    simp [getKey, hv, hk]
  exact ⟨hg, by simp [handleChanges, hu, hg]⟩

/-- Witness for C7: a key function constantly returning the number 3
makes the pipeline fail on an add event without producing a batch. -/
theorem getKey_nonstring_is_fatal_witness :
    makeUpdate (addEvent (0 : Nat)) = .ok (some ⟨.add, none, some 0⟩)
    ∧ (((⟨.add, none, some 0⟩ : WatchUpdate Nat).newVal
        <|> (⟨.add, none, some 0⟩ : WatchUpdate Nat).oldVal) = some 0)
    ∧ (fun _ : Nat => JSVal.num 3) 0 = JSVal.num 3
    ∧ handleChanges (fun _ : Nat => JSVal.num 3) [] [] (addEvent (0 : Nat))
      = .error (.keyNotString (JSVal.num 3)) :=
  ⟨rfl, rfl, rfl,
    (getKey_nonstring_is_fatal (fun _ : Nat => JSVal.num 3) [] []
      (addEvent (0 : Nat)) ⟨.add, none, some 0⟩ 0 3 rfl rfl rfl).2⟩

/-- Feeding further add events for a key whose dedup state exists only
bumps the reference count: the pending list, the batch and the rest of
the state are untouched and no error is raised. -/
theorem processChanges_suppresses_repeated_adds {T : Type} (keyFn : T → JSVal)
    (k : String) :
    ∀ vs : List T, (∀ w ∈ vs, keyFn w = JSVal.str k) →
    ∀ (n : Int) (pu : List (WatchUpdate T)) (b : Batch T),
    processChanges keyFn [(k, ⟨n, pu⟩)] b (vs.map addEvent)
      = .ok ([(k, ⟨n + vs.length, pu⟩)], b) := by
  intro vs
  induction vs with
  | nil =>
    intro _ n pu b
    simp [processChanges]
  | cons v tl ih =>
    intro hk n pu b
    have hv : keyFn v = JSVal.str k := hk v (List.mem_cons_self v tl)
    have htl : ∀ w ∈ tl, keyFn w = JSVal.str k :=
      fun w hw => hk w (List.mem_cons_of_mem v hw)
    have step : processChanges keyFn [(k, (⟨n, pu⟩ : DedupState T))] b
          (List.map addEvent (v :: tl))
        = processChanges keyFn [(k, ⟨n + 1, pu⟩)] b (List.map addEvent tl) := by
      simp [processChanges, handleChanges, makeUpdate, addEvent, getKey, hv,
        handleDuplicateUpdates, AList.get, AList.set]
    rw [step, ih htl (n + 1) pu b]
    have harith : n + 1 + (tl.length : Int) = n + ((v :: tl).length : Int) := by
      simp only [List.length_cons]
      push_cast
      ring
    rw [harith]

/-- C1: processing N consecutive add events for one key, starting from
empty dedup state and an empty batch, succeeds for every N at least one
and produces a batch holding exactly one add entry for that key,
carrying the first value; the dedup state records the reference count N
with nothing pending.  In particular no error is raised and no duplicate
batch entry is created. -/
theorem watch_dedups_consecutive_adds {T : Type} (keyFn : T → JSVal)
    (k : String) (v : T) (vs : List T)
    (hk : ∀ w ∈ v :: vs, keyFn w = JSVal.str k) :
    processChanges keyFn [] [] ((v :: vs).map addEvent)
      = .ok ([(k, ⟨(v :: vs).length, []⟩)], [(k, ⟨.add, none, some v⟩)]) := by
  have hv : keyFn v = JSVal.str k := hk v (List.mem_cons_self v vs)
  have htl : ∀ w ∈ vs, keyFn w = JSVal.str k :=
    fun w hw => hk w (List.mem_cons_of_mem v hw)
  have step : processChanges keyFn [] [] (List.map addEvent (v :: vs))
      = processChanges keyFn [(k, ⟨1, []⟩)] [(k, ⟨.add, none, some v⟩)]
          (List.map addEvent vs) := by
    simp [processChanges, handleChanges, makeUpdate, addEvent, getKey, hv,
      handleDuplicateUpdates, addToBatch, AList.get, AList.set]
  rw [step, processChanges_suppresses_repeated_adds keyFn k vs htl 1 []
    [(k, ⟨.add, none, some v⟩)]]
  have harith : (1 : Int) + (vs.length : Int) = ((v :: vs).length : Int) := by
    simp only [List.length_cons]
    push_cast
    ring
  rw [harith]

/-- Witness for C1: three add events for the same key yield one add
entry and reference count three. -/
theorem watch_dedups_consecutive_adds_witness :
    (∀ w ∈ ([0, 1, 2] : List Nat),
      (fun _ : Nat => JSVal.str "k") w = JSVal.str "k")
    ∧ processChanges (fun _ : Nat => JSVal.str "k") [] []
        (([0, 1, 2] : List Nat).map addEvent)
      = .ok ([("k", ⟨([0, 1, 2] : List Nat).length, []⟩)],
             [("k", ⟨.add, none, some 0⟩)]) :=
  ⟨by decide,
    watch_dedups_consecutive_adds (fun _ : Nat => JSVal.str "k") "k" 0 [1, 2]
      (by decide)⟩

/-- C10: makeUpdate only returns null or a well-formed update, and
addToBatch, given a batch whose stored values are all well-formed and a
well-formed new update, leaves every stored value well-formed. -/
theorem updates_well_formed_invariant {T : Type} :
    (∀ (c : Changes T) (u : WatchUpdate T),
      makeUpdate c = .ok (some u) → wfUpdate u = true)
    ∧ (∀ (b : Batch T) (k : String) (u : WatchUpdate T) (b' : Batch T),
        (∀ e ∈ b, wfUpdate e.2 = true) → wfUpdate u = true →
        addToBatch b k u = .ok b' → ∀ e ∈ b', wfUpdate e.2 = true) := by
  constructor
  · intro c u h
    obtain ⟨nv, ov, err, st⟩ := c
    cases err with
    | some e => simp [makeUpdate] at h
    | none =>
      cases nv with
      | some nvv =>
        cases ov with
        | none =>
          simp [makeUpdate] at h
          subst h
          rfl
        | some ovv =>
          simp [makeUpdate] at h
          subst h
          rfl
      | none =>
        cases ov with
        | none => simp [makeUpdate] at h
        | some ovv =>
          simp [makeUpdate] at h
          subst h
          rfl
  · intro b k u b' hall hu h e he
    have hthru : ∀ w : WatchUpdate T, wfUpdate w = true →
        ∀ e' ∈ AList.set b k w, wfUpdate e'.2 = true := by
      intro w hw e' he'
      rcases AList.mem_set he' with rfl | hmem
      · exact hw
      · exact hall e' hmem
    unfold addToBatch at h
    rcases hget : AList.get b k with _ | p
    · simp only [hget] at h
      injection h with h
      subst h
      exact hthru u hu e he
    · simp only [hget] at h
      have hp : wfUpdate p = true := hall (k, p) (AList.get_mem hget)
      cases hpt : p.type <;> cases hut : u.type <;> simp only [hpt, hut] at h
      · simp at h
      · injection h with h
        subst h
        simp only [wfUpdate, hut, Bool.and_eq_true] at hu
        refine hthru _ ?_ e he
        simp [wfUpdate, hu.2]
      · injection h with h
        subst h
        exact hall e (AList.mem_del he)
      · simp at h
      · injection h with h
        subst h
        simp only [wfUpdate, hpt, Bool.and_eq_true] at hp
        simp only [wfUpdate, hut, Bool.and_eq_true] at hu
        refine hthru _ ?_ e he
        simp [wfUpdate, hp.1, hu.2]
      · injection h with h
        subst h
        simp only [wfUpdate, hpt, Bool.and_eq_true] at hp
        refine hthru _ ?_ e he
        simp [wfUpdate, hp.1]
      · injection h with h
        subst h
        simp only [wfUpdate, hpt, Bool.and_eq_true] at hp
        simp only [wfUpdate, hut, Bool.and_eq_true] at hu
        refine hthru _ ?_ e he
        simp [wfUpdate, hp.1, hu.1]
      · simp at h
      · simp at h

/-- Witness for C10: the change produced by a concrete raw event is
well-formed, and merging a well-formed change over a well-formed add
keeps every stored batch value well-formed. -/
theorem updates_well_formed_invariant_witness :
    (makeUpdate (⟨some 1, some 0, none, none⟩ : Changes Nat)
        = .ok (some ⟨.change, some 0, some 1⟩)
      ∧ wfUpdate (⟨.change, some 0, some 1⟩ : WatchUpdate Nat) = true)
    ∧ ((∀ e ∈ [("a", (⟨.add, none, some 1⟩ : WatchUpdate Nat))],
          wfUpdate e.2 = true)
      ∧ wfUpdate (⟨.change, some 1, some 2⟩ : WatchUpdate Nat) = true
      ∧ addToBatch [("a", (⟨.add, none, some 1⟩ : WatchUpdate Nat))] "a"
          ⟨.change, some 1, some 2⟩
        = .ok [("a", (⟨.add, none, some 2⟩ : WatchUpdate Nat))]
      ∧ ∀ e ∈ [("a", (⟨.add, none, some 2⟩ : WatchUpdate Nat))],
          wfUpdate e.2 = true) :=
  ⟨⟨rfl,
    updates_well_formed_invariant.1 ⟨some 1, some 0, none, none⟩
      ⟨.change, some 0, some 1⟩ rfl⟩,
   ⟨by decide, by decide, by rfl,
    updates_well_formed_invariant.2
      [("a", (⟨.add, none, some 1⟩ : WatchUpdate Nat))] "a"
      ⟨.change, some 1, some 2⟩
      [("a", (⟨.add, none, some 2⟩ : WatchUpdate Nat))]
      (by decide) (by decide) (by rfl)⟩⟩

end RethinkdbWatch
